import Mathlib

/-!
Verification of the reterm component-tree engine against its specification.

The definitions below are a shallow embedding of the Python source in
src/reterm/ (component.py, container.py, state.py, events.py).  Python
objects become inductive trees or structures, mutation becomes explicit
state passing, and raised exceptions become Option/pair results.
-/

/-- Lifecycle states, from reterm/constants.py (ComponentState). -/
inductive LState where
  | created
  | mounted
  | updated
  | unmounted
deriving DecidableEq, Repr

/--
A component tree node, from reterm/component.py (Component.__init__) and
reterm/container.py (Container.__init__).  Fields: optional id, optional
name (props["name"]), the _is_mounted flag, the lifecycle state, the
_is_visible flag, _position (y, x), _size (height, width), and, for
Container instances, _layout_direction (vert = true means "vertical") and
_layout_spacing; finally the ordered _children list.  Parent
back-references are implicit: a node's parent is the node owning it in
the tree, and the root of the tree value plays the role of self.root.
-/
inductive Comp where
  | mk (cid : Option String) (nm : Option String) (isMounted : Bool)
       (ls : LState) (visible : Bool) (pos : Int × Int) (sz : Int × Int)
       (vert : Bool) (spacing : Int) (children : List Comp)

mutual

/-- Decidable structural equality on component trees. -/
def Comp.decEq : (a b : Comp) → Decidable (a = b)
  | .mk i1 n1 m1 l1 v1 p1 s1 vt1 sp1 cs1, .mk i2 n2 m2 l2 v2 p2 s2 vt2 sp2 cs2 =>
    if hf : (i1, n1, m1, l1, v1) = (i2, n2, m2, l2, v2) then
      if hg : (p1, s1, vt1, sp1) = (p2, s2, vt2, sp2) then
        match Comp.decEqL cs1 cs2 with
        | isTrue hcs => isTrue (by
            simp only [Prod.mk.injEq] at hf hg
            obtain ⟨h1, h2, h3, h4, h5⟩ := hf
            obtain ⟨h6, h7, h8, h9⟩ := hg
            subst h1; subst h2; subst h3; subst h4; subst h5
            subst h6; subst h7; subst h8; subst h9; rw [hcs])
        | isFalse hcs => isFalse (fun he => by cases he; exact hcs rfl)
      else isFalse (fun he => by cases he; exact hg rfl)
    else isFalse (fun he => by cases he; exact hf rfl)

/-- Decidable structural equality on lists of component trees. -/
def Comp.decEqL : (a b : List Comp) → Decidable (a = b)
  | [], [] => isTrue rfl
  | [], _ :: _ => isFalse (by simp)
  | _ :: _, [] => isFalse (by simp)
  | a :: as, b :: bs =>
    match Comp.decEq a b, Comp.decEqL as bs with
    | isTrue h1, isTrue h2 => isTrue (by rw [h1, h2])
    | isFalse h1, _ => isFalse (fun he => by injection he; contradiction)
    | _, isFalse h2 => isFalse (fun he => by injection he; contradiction)

end

instance : DecidableEq Comp := Comp.decEq

/-- Field accessor: self.id. -/
def Comp.cid : Comp → Option String
  | .mk i _ _ _ _ _ _ _ _ _ => i

/-- Field accessor: self.name. -/
def Comp.nm : Comp → Option String
  | .mk _ n _ _ _ _ _ _ _ _ => n

/-- Field accessor: self._is_mounted. -/
def Comp.isMounted : Comp → Bool
  | .mk _ _ m _ _ _ _ _ _ _ => m

/-- Field accessor: self._lifecycle_state. -/
def Comp.ls : Comp → LState
  | .mk _ _ _ l _ _ _ _ _ _ => l

/-- Field accessor: self._is_visible. -/
def Comp.visible : Comp → Bool
  | .mk _ _ _ _ v _ _ _ _ _ => v

/-- Field accessor: self._position as (y, x). -/
def Comp.pos : Comp → Int × Int
  | .mk _ _ _ _ _ p _ _ _ _ => p

/-- Field accessor: self._size as (height, width). -/
def Comp.sz : Comp → Int × Int
  | .mk _ _ _ _ _ _ s _ _ _ => s

/-- Field accessor: self._layout_direction = "vertical". -/
def Comp.vert : Comp → Bool
  | .mk _ _ _ _ _ _ _ v _ _ => v

/-- Field accessor: self._layout_spacing. -/
def Comp.spacing : Comp → Int
  | .mk _ _ _ _ _ _ _ _ s _ => s

/-- Field accessor: self._children. -/
def Comp.children : Comp → List Comp
  | .mk _ _ _ _ _ _ _ _ _ cs => cs

mutual

/--
Component.find_by_id (component.py lines 55-70): if self.id == id return
self, else depth-first search the children, returning the first match.
-/
def Comp.findById : Comp → String → Option Comp
  | c@(.mk i _ _ _ _ _ _ _ _ cs), target =>
    if i = some target then some c else Comp.findByIdL cs target

/-- The for-loop over children inside Component.find_by_id. -/
def Comp.findByIdL : List Comp → String → Option Comp
  | [], _ => none
  | c :: rest, target =>
    match Comp.findById c target with
    | some found => some found
    | none => Comp.findByIdL rest target

end

mutual

/--
Component._get_all_descendants (component.py lines 199-209): for each
child, append the child and extend with the child's descendants.
-/
def Comp.descendants : Comp → List Comp
  | .mk _ _ _ _ _ _ _ _ _ cs => Comp.descendantsL cs

/-- The for-loop inside Component._get_all_descendants. -/
def Comp.descendantsL : List Comp → List Comp
  | [] => []
  | c :: rest => c :: (Comp.descendants c ++ Comp.descendantsL rest)

end

mutual

/-- All non-None ids reachable from a node (the node itself included). -/
def Comp.allIds : Comp → List String
  | .mk i _ _ _ _ _ _ _ _ cs => i.toList ++ Comp.allIdsL cs

/-- All non-None ids reachable from a list of nodes. -/
def Comp.allIdsL : List Comp → List String
  | [] => []
  | c :: rest => Comp.allIds c ++ Comp.allIdsL rest

end

/-- Per-node event tag used in lifecycle traces: (id, name) of the node. -/
abbrev Tag := Option String × Option String

mutual

/--
Component.mount (component.py lines 84-97): if not mounted, set
_is_mounted, set lifecycle to MOUNTED, emit MOUNT, then mount the
children in order.  The second component of the result is the trace of
MOUNT events emitted, one Tag per node that actually transitions, in
emission order.  If already mounted the call is a complete no-op.
-/
def Comp.mountC : Comp → Comp × List Tag
  | .mk i n m l v p s vt sp cs =>
    if m then (.mk i n m l v p s vt sp cs, [])
    else
      let r := Comp.mountL cs
      (.mk i n true .mounted v p s vt sp r.1, (i, n) :: r.2)

/-- The child-mounting loop inside Component.mount. -/
def Comp.mountL : List Comp → List Comp × List Tag
  | [] => ([], [])
  | c :: rest =>
    let a := Comp.mountC c
    let b := Comp.mountL rest
    (a.1 :: b.1, a.2 ++ b.2)

end

mutual

/--
Component.unmount (component.py lines 99-112): if mounted, first unmount
the children in order, then clear _is_mounted, set lifecycle to
UNMOUNTED, and emit UNMOUNT.  The trace lists UNMOUNT events in emission
order (children before the node itself).
-/
def Comp.unmountC : Comp → Comp × List Tag
  | .mk i n m l v p s vt sp cs =>
    if m then
      let r := Comp.unmountL cs
      (.mk i n false .unmounted v p s vt sp r.1, r.2 ++ [(i, n)])
    else (.mk i n m l v p s vt sp cs, [])

/-- The child-unmounting loop inside Component.unmount. -/
def Comp.unmountL : List Comp → List Comp × List Tag
  | [] => ([], [])
  | c :: rest =>
    let a := Comp.unmountC c
    let b := Comp.unmountL rest
    (a.1 :: b.1, a.2 ++ b.2)

end

/--
Navigate to the node addressed by a path of child indices.  This stands
in for holding a Python reference to a node inside the tree: the Python
caller invokes add_child on such a reference, and self.root walks parent
links back to the tree root.
-/
def Comp.getAt : Comp → List Nat → Option Comp
  | c, [] => some c
  | .mk _ _ _ _ _ _ _ _ _ cs, k :: p =>
    match cs[k]? with
    | some ch => Comp.getAt ch p
    | none => none

/--
Rebuild the tree with newChild appended to the children of the node at
the given path (the mutation self._children.append(child)).
-/
def Comp.insertAt : Comp → List Nat → Comp → Option Comp
  | .mk i n m l v p s vt sp cs, [], newChild =>
    some (.mk i n m l v p s vt sp (cs ++ [newChild]))
  | .mk i n m l v p s vt sp cs, k :: rest, newChild =>
    match cs[k]? with
    | some sub =>
      match Comp.insertAt sub rest newChild with
      | some sub2 => some (.mk i n m l v p s vt sp (cs.set k sub2))
      | none => none
    | none => none

/--
The duplicate-name loop in Component.add_child (component.py lines
155-159): with child.name not None, scan existing children for an equal
name.
-/
def nameClash (siblings : List Comp) (childName : Option String) : Bool :=
  match childName with
  | none => false
  | some n => siblings.any (fun c => c.nm = some n)

/--
The duplicate-id check on the child itself in Component.add_child
(component.py lines 161-166): child.id not None and root.find_by_id hits.
-/
def childIdClash (root child : Comp) : Bool :=
  match child.cid with
  | some i => (root.findById i).isSome
  | none => false

/--
The descendant loop in Component.add_child (component.py lines 168-177):
for each descendant with a non-None id, search the current tree from the
root; true when some descendant id already exists.
-/
def dupDescCheck (root : Comp) : List Comp → Bool
  | [] => false
  | d :: ds =>
    match d.cid with
    | some i =>
      if (root.findById i).isSome then true else dupDescCheck root ds
    | none => dupDescCheck root ds

/--
Component.add_child (component.py lines 144-183), invoked on the node at
the given path inside root.  Python raising ValueError is modeled as
returning the unchanged tree paired with some error string; all checks
run before any mutation, exactly as in the source.  If the child is
already present in self._children the body is skipped entirely (silent
no-op).  On success the child is appended and, if the target node is
mounted, the child subtree is mounted (child.mount()).
-/
def Comp.addChild (root : Comp) (path : List Nat) (child : Comp) :
    Comp × Option String :=
  match root.getAt path with
  | none => (root, some "invalid path")
  | some tgt =>
    if child ∈ tgt.children then (root, none)
    else if nameClash tgt.children child.nm then
      (root, some "duplicate name")
    else if childIdClash root child then
      (root, some "duplicate id")
    else if dupDescCheck root child.descendants then
      (root, some "duplicate descendant id")
    else
      let staged := if tgt.isMounted then (Comp.mountC child).1 else child
      match root.insertAt path staged with
      | some r => (r, none)
      | none => (root, some "invalid path")

/-- Replace _position. -/
def Comp.withPos : Comp → Int × Int → Comp
  | .mk i n m l v _ s vt sp cs, p => .mk i n m l v p s vt sp cs

/-- Replace _size. -/
def Comp.withSize : Comp → Int × Int → Comp
  | .mk i n m l v p _ vt sp cs, s => .mk i n m l v p s vt sp cs

/-- Replace _is_visible. -/
def Comp.withVisible : Comp → Bool → Comp
  | .mk i n m l _ p s vt sp cs, v => .mk i n m l v p s vt sp cs

/-- Replace _lifecycle_state. -/
def Comp.withLS : Comp → LState → Comp
  | .mk i n m _ v p s vt sp cs, l => .mk i n m l v p s vt sp cs

/--
Component.update (component.py lines 114-123): if mounted, set lifecycle
to UPDATED, emit UPDATE and render.  The Bool records whether the guarded
body ran (an UPDATE event was emitted).
-/
def Comp.updateC (c : Comp) : Comp × Bool :=
  if c.isMounted then (c.withLS .updated, true) else (c, false)

/--
The position setter (component.py lines 221-226): unconditionally store
the new value, then, if mounted, call update().  The Bool records whether
update() was invoked.
-/
def Comp.setPositionS (c : Comp) (v : Int × Int) : Comp × Bool :=
  let c2 := c.withPos v
  if c2.isMounted then ((c2.updateC).1, true) else (c2, false)

/--
The size setter (component.py lines 242-247): unconditionally store the
new value, then, if mounted, call update().
-/
def Comp.setSizeS (c : Comp) (v : Int × Int) : Comp × Bool :=
  let c2 := c.withSize v
  if c2.isMounted then ((c2.updateC).1, true) else (c2, false)

/--
The visible setter (component.py lines 263-269): only when the stored
flag differs from the new value, store it and, if mounted, call update().
-/
def Comp.setVisibleS (c : Comp) (v : Bool) : Comp × Bool :=
  if c.visible ≠ v then
    let c2 := c.withVisible v
    if c2.isMounted then ((c2.updateC).1, true) else (c2, false)
  else (c, false)

/--
The per-child placement loop of Container.calculate_layout for the
vertical direction (container.py lines 102-107): walk the children in
order, assign (current_y, start_x) and (height_per_child, width) to each
visible child, advance current_y by height_per_child + spacing; invisible
children are left untouched and consume nothing.  The assignments go
through the position/size setters, which for a mounted child run its
update(); the further layout recursion a mounted Container child would
perform inside its own update() is not modeled (the layout claims
concern leaf children, whose update() does not touch geometry).
-/
def placeV (startX hpc w sp : Int) : List Comp → Int → List Comp
  | [], _ => []
  | c :: rest, curY =>
    if c.visible then
      (((c.setPositionS (curY, startX)).1.setSizeS (hpc, w)).1)
        :: placeV startX hpc w sp rest (curY + hpc + sp)
    else c :: placeV startX hpc w sp rest curY

/--
The horizontal placement loop (container.py lines 115-119): assign
(start_y, current_x) and (height, width_per_child) to each visible child.
-/
def placeH (startY wpc h sp : Int) : List Comp → Int → List Comp
  | [], _ => []
  | c :: rest, curX =>
    if c.visible then
      (((c.setPositionS (startY, curX)).1.setSizeS (h, wpc)).1)
        :: placeH startY wpc h sp rest (curX + wpc + sp)
    else c :: placeH startY wpc h sp rest curX

/--
Container.calculate_layout (container.py lines 79-119): no-op without
children or without visible children; otherwise divide the primary-axis
extent, minus spacing between visible children and clamped to at least
zero, by the number of visible children with floor division, and place
the visible children sequentially from the container origin.  The
remainder of the division is not distributed.
-/
def Comp.calcLayout : Comp → Comp
  | c@(.mk i n m l v (startY, startX) (hh, ww) vt sp cs) =>
    if cs = [] then c
    else
      let visCount : Int := (cs.filter (fun x => x.visible)).length
      if visCount = 0 then c
      else if vt then
        let totalSpacing := sp * (visCount - 1)
        let avail := max 0 (hh - totalSpacing)
        let hpc := avail / visCount
        .mk i n m l v (startY, startX) (hh, ww) vt sp
          (placeV startX hpc ww sp cs startY)
      else
        let totalSpacing := sp * (visCount - 1)
        let avail := max 0 (ww - totalSpacing)
        let wpc := avail / visCount
        .mk i n m l v (startY, startX) (hh, ww) vt sp
          (placeH startY wpc hh sp cs startX)

/--
Event-dispatch view of a node, for Component.handle_event (component.py
lines 289-307) and Container.handle_event (container.py lines 135-156).
isContainer selects which handle_event body runs; selfHandled abstracts
the result of the node's own (possibly subclass-overridden) base-behavior
offer -- the stock Component.handle_event emits the event on self and
returns False, so for stock nodes selfHandled is false; the label names
the node for traces.
-/
inductive EvNode where
  | mk (label : String) (isContainer : Bool) (visible : Bool)
       (selfHandled : Bool) (children : List EvNode)

/-- Field accessor. -/
def EvNode.label : EvNode → String
  | .mk lb _ _ _ _ => lb

/-- Field accessor. -/
def EvNode.visible : EvNode → Bool
  | .mk _ _ v _ _ => v

/-- Field accessor. -/
def EvNode.selfHandled : EvNode → Bool
  | .mk _ _ _ h _ => h

/-- Field accessor. -/
def EvNode.children : EvNode → List EvNode
  | .mk _ _ _ _ cs => cs

mutual

/--
handle_event.  For a plain Component (component.py lines 289-307): emit
the event on self, return whether self handled it (False for the stock
class).  For a Container (container.py lines 135-156): first offer the
event to self via the base behavior; if handled return True; otherwise
walk the children in reversed insertion order, skip invisible ones, and
return True at the first child whose handle_event returns True; if none
does, return False.  The String list is the trace of nodes offered the
event, in offer order.
-/
def EvNode.handleEvent : EvNode → Bool × List String
  | .mk lb isC _ sh cs =>
    if isC then
      if sh then (true, [lb])
      else
        let r := EvNode.propagateRev cs
        (r.1, lb :: r.2)
    else (sh, [lb])

/--
The reversed-order propagation loop of Container.handle_event: the
children list is consumed so that later (more recently added) children
are offered the event first, stopping at the first that handles it.
-/
def EvNode.propagateRev : List EvNode → Bool × List String
  | [] => (false, [])
  | c :: rest =>
    let r := EvNode.propagateRev rest
    if r.1 then r
    else if c.visible then
      let h := EvNode.handleEvent c
      (h.1, r.2 ++ h.2)
    else r

end

/--
A Python dict lookup d.get(key), reading missing keys as None.  Stored
values are Option alpha, with Python None modeled by Option.none.
-/
def dictGet {α : Type} (d : List (String × Option α)) (k : String) :
    Option α :=
  (d.lookup k).getD none

/-- A Python dict store d[key] = value (replace in place or append). -/
def dictSet {α : Type} : List (String × Option α) → String → Option α →
    List (String × Option α)
  | [], k, v => [(k, v)]
  | (k1, v1) :: rest, k, v =>
    if k1 = k then (k1, v) :: rest else (k1, v1) :: dictSet rest k v

/--
The change notifications a State emits (state.py): set emits keyword
arguments key/value/old_value, update emits keyword arguments
keys/updates.  The two shapes are distinct constructors.
-/
inductive Notif (α : Type) where
  | single (key : String) (value oldValue : Option α)
  | batch (keys : List String) (updates : List (String × Option α))
deriving DecidableEq

/--
State (state.py lines 9-83): the _state dict and the _previous_state
dict.
-/
structure StateC (α : Type) where
  state : List (String × Option α)
  prev : List (String × Option α)
deriving DecidableEq

/--
State.set (state.py lines 34-45): read the old value with
self._state.get(key); when it differs from the new value, record the old
value in _previous_state, store the new value, and emit a single-key
STATE_CHANGE carrying key, value and old_value.  Equal values do
nothing.
-/
def StateC.setS {α : Type} [DecidableEq α] (s : StateC α) (k : String)
    (v : Option α) : StateC α × Option (Notif α) :=
  let old := dictGet s.state k
  if old ≠ v then
    (⟨dictSet s.state k v, dictSet s.prev k old⟩, some (.single k v old))
  else (s, none)

/--
The loop of State.update (state.py lines 53-60): fold over the entries
of the updates mapping, applying the same change detection per entry and
collecting the changed keys in iteration order.  Returns the final
_state, the final _previous_state, and the changed keys.
-/
def updLoop {α : Type} [DecidableEq α] :
    List (String × Option α) → List (String × Option α) →
    List (String × Option α) →
    List (String × Option α) × List (String × Option α) × List String
  | st, pv, [] => (st, pv, [])
  | st, pv, (k, v) :: rest =>
    let old := dictGet st k
    if old ≠ v then
      let r := updLoop (dictSet st k v) (dictSet pv k old) rest
      (r.1, r.2.1, k :: r.2.2)
    else updLoop st pv rest

/--
State.update (state.py lines 47-63): run the loop; if any key changed,
emit exactly one batch STATE_CHANGE carrying the changed keys and the
full input mapping.
-/
def StateC.updateS {α : Type} [DecidableEq α] (s : StateC α)
    (m : List (String × Option α)) : StateC α × Option (Notif α) :=
  let r := updLoop s.state s.prev m
  (⟨r.1, r.2.1⟩, if r.2.2 = [] then none else some (.batch r.2.2 m))

/--
EventEmitter (events.py lines 10-37, 62-71).  Handlers are identified by
Nat tokens.  signals is the key set of self._signals (the blinker named
signals this emitter has created); receivers maps each such signal name
to its connected receivers in connect order (blinker stores receivers
keyed by id, so connecting the same handler twice keeps one entry);
handlers is self._event_handlers (plain append).
-/
structure Emitter where
  signals : List String
  receivers : List (String × List Nat)
  handlers : List (String × List Nat)
deriving DecidableEq

/-- A fresh EventEmitter (EventEmitter.__init__). -/
def Emitter.empty : Emitter := ⟨[], [], []⟩

/-- Read an assoc list with a default. -/
def lookupD {α : Type} (d : List (String × List α)) (k : String) :
    List α :=
  (d.lookup k).getD []

/-- Store into an assoc list (replace in place or append). -/
def storeL {α : Type} : List (String × List α) → String → List α →
    List (String × List α)
  | [], k, v => [(k, v)]
  | (k1, v1) :: rest, k, v =>
    if k1 = k then (k1, v) :: rest else (k1, v1) :: storeL rest k v

/--
EventEmitter.on (events.py lines 18-37): create the named signal on
first use, connect the handler (kept once per identity, in connect
order), and append the handler to self._event_handlers.
-/
def Emitter.onE (e : Emitter) (name : String) (h : Nat) : Emitter :=
  let sigs := if name ∈ e.signals then e.signals else e.signals ++ [name]
  let recv := lookupD e.receivers name
  let recv2 := if h ∈ recv then recv else recv ++ [h]
  let hs := lookupD e.handlers name
  ⟨sigs, storeL e.receivers name recv2, storeL e.handlers name (hs ++ [h])⟩

/--
EventEmitter.emit (events.py lines 62-71): when this emitter has a
signal for the event name, call signal.send(self, **kwargs), which
invokes every connected receiver in connect order with the sender and
the keyword arguments only -- the positional args of emit are never
forwarded.  When the emitter has no signal for the name, nothing
happens.  The result is the list of handler invocations (receiver,
keyword payload it receives), in invocation order; the sender passed to
each receiver is the emitter itself and is not repeated per entry.
-/
def Emitter.emitE {α : Type} (e : Emitter) (name : String)
    (args : List α) (kwargs : List (String × α)) :
    List (Nat × List (String × α)) :=
  if name ∈ e.signals then
    (lookupD e.receivers name).map (fun h => (h, kwargs))
  else []

/--
StateManager instance attributes (state.py lines 86-136).  Python name
mangling makes the attribute written by __new__ and __init__ be
_StateManager__initialized (mangledInitialized), while the string
"__initialized" probed by hasattr in __init__ names a distinct attribute
that no code ever writes (hasPlainInitialized).
-/
structure SMInst where
  hasPlainInitialized : Bool
  mangledInitialized : Bool
  states : List (String × StateC Nat)
deriving DecidableEq

/--
The process-wide picture for StateManager: the class attribute _instance
(an index into the heap of allocated instances, or none) and the heap.
-/
structure SMWorld where
  instSlot : Option Nat
  heap : List SMInst
deriving DecidableEq

/-- Replace the heap entry at an index. -/
def SMWorld.setInst (w : SMWorld) (i : Nat) (inst : SMInst) : SMWorld :=
  ⟨w.instSlot, w.heap.set i inst⟩

/--
StateManager.__new__ (state.py lines 91-96): allocate a fresh instance
and remember it in _instance on first call, setting the mangled
initialized attribute to False; afterwards always return the remembered
instance.
-/
def smNew (w : SMWorld) : Nat × SMWorld :=
  match w.instSlot with
  | some i => (i, w)
  | none =>
    let i := w.heap.length
    (i, ⟨some i, w.heap ++ [⟨false, false, []⟩]⟩)

/--
StateManager.__init__ (state.py lines 98-102): the guard is
not hasattr(self, "__initialized") or not self.__initialized.  hasattr
probes the literal attribute name "__initialized", which is never
written (the writes are mangled), so the guard passes on every call and
the body resets _states to an empty dict and sets the mangled
initialized attribute.
-/
def smInit (w : SMWorld) (i : Nat) : SMWorld :=
  match w.heap[i]? with
  | none => w
  | some inst =>
    if ¬ inst.hasPlainInitialized ∨ ¬ inst.mangledInitialized then
      w.setInst i ⟨inst.hasPlainInitialized, true, []⟩
    else w

/--
One acquisition StateManager(): __new__ then __init__ on the returned
instance.
-/
def smAcquire (w : SMWorld) : Nat × SMWorld :=
  let r := smNew w
  (r.1, smInit r.2 r.1)

/-- Iterated acquisitions, discarding the returned references. -/
def smAcquireK : Nat → SMWorld → SMWorld
  | 0, w => w
  | k + 1, w => smAcquireK k (smAcquire w).2

/--
StateManager.create_state (state.py lines 104-119): raise (modeled as
none) when the name is already present in self._states, else store a new
State built from the initial values and return it.
-/
def smCreateState (w : SMWorld) (i : Nat) (name : String)
    (init : List (String × Option Nat)) : SMWorld × Option (StateC Nat) :=
  match w.heap[i]? with
  | none => (w, none)
  | some inst =>
    if (inst.states.lookup name).isSome then (w, none)
    else
      let st : StateC Nat := ⟨init, []⟩
      (w.setInst i ⟨inst.hasPlainInitialized, inst.mangledInitialized,
        inst.states ++ [(name, st)]⟩, some st)

/--
StateManager.get_state (state.py lines 121-136): raise KeyError (modeled
as none) when the name is not in self._states, else return the stored
State.
-/
def smGetState (w : SMWorld) (i : Nat) (name : String) :
    Option (StateC Nat) :=
  match w.heap[i]? with
  | none => none
  | some inst => inst.states.lookup name

mutual

/-- Every node in the tree has _is_mounted = False. -/
def Comp.allUnmounted : Comp → Bool
  | .mk _ _ m _ _ _ _ _ _ cs => !m && Comp.allUnmountedL cs

/-- List version of allUnmounted. -/
def Comp.allUnmountedL : List Comp → Bool
  | [] => true
  | c :: rest => Comp.allUnmounted c && Comp.allUnmountedL rest

end

mutual

/-- Every node in the tree has _is_mounted = True. -/
def Comp.allMounted : Comp → Bool
  | .mk _ _ m _ _ _ _ _ _ cs => m && Comp.allMountedL cs

/-- List version of allMounted. -/
def Comp.allMountedL : List Comp → Bool
  | [] => true
  | c :: rest => Comp.allMounted c && Comp.allMountedL rest

end

mutual

/-- Tags of all nodes in preorder (node before its children). -/
def Comp.preTags : Comp → List Tag
  | .mk i n _ _ _ _ _ _ _ cs => (i, n) :: Comp.preTagsL cs

/-- List version of preTags. -/
def Comp.preTagsL : List Comp → List Tag
  | [] => []
  | c :: rest => Comp.preTags c ++ Comp.preTagsL rest

end

mutual

/-- Tags of all nodes in postorder (children before the node). -/
def Comp.postTags : Comp → List Tag
  | .mk i n _ _ _ _ _ _ _ cs => Comp.postTagsL cs ++ [(i, n)]

/-- List version of postTags. -/
def Comp.postTagsL : List Comp → List Tag
  | [] => []
  | c :: rest => Comp.postTags c ++ Comp.postTagsL rest

end

/-- A bare leaf component as constructed by Component() with defaults. -/
def leafC : Comp := .mk none none false .created true (0, 0) (0, 0) true 0 []

/--
C3: a vertical container at (0,0) with size (100,200) and two visible
children: with spacing 0, calculate_layout assigns positions (0,0) and
(50,0) and size 50 by 200 to each child; with spacing 10 it assigns size
45 by 200 at y = 0 and y = 55 (floor division, remainder not
distributed).
-/
theorem claim_C3 :
    ((Comp.calcLayout (.mk none none false .created true (0, 0) (100, 200)
        true 0 [leafC, leafC])).children.map (fun c => (c.pos, c.sz)))
      = [((0, 0), (50, 200)), ((50, 0), (50, 200))]
    ∧ ((Comp.calcLayout (.mk none none false .created true (0, 0) (100, 200)
        true 10 [leafC, leafC])).children.map (fun c => (c.pos, c.sz)))
      = [((0, 0), (45, 200)), ((55, 0), (45, 200))] := by
  constructor <;> rfl

/--
C9 counterexample: the claim says assigning a value equal to the current
position triggers no update, but the position setter stores and then
calls update() whenever the component is mounted, with no equality
check.  Here a mounted component whose position already is (0,0) is
assigned (0,0) and update() is still invoked.
-/
theorem claim_C9_counterexample :
    (Comp.mk none none true .mounted true (0, 0) (0, 0) true 0 []).isMounted
        = true
    ∧ (Comp.mk none none true .mounted true (0, 0) (0, 0) true 0 []).pos
        = (0, 0)
    ∧ ((Comp.mk none none true .mounted true (0, 0) (0, 0) true 0
        []).setPositionS (0, 0)).2 = true := by
  refine ⟨rfl, rfl, rfl⟩

/--
C9 (amended): the position and size setters invoke update() exactly when
the component is mounted, regardless of whether the assigned value
differs from the current one; the visibility setter invokes update()
exactly when the flag actually flips and the component is mounted.
-/
theorem claim_C9 :
    ∀ (c : Comp) (v : Int × Int) (b : Bool),
      (c.setPositionS v).2 = c.isMounted
      ∧ (c.setSizeS v).2 = c.isMounted
      ∧ (c.setVisibleS b).2 = (decide (c.visible ≠ b) && c.isMounted) := by
  intro c v b
  cases c with
  | mk i n m l vis p s vt sp cs =>
    refine ⟨?_, ?_, ?_⟩ <;>
      simp [Comp.setPositionS, Comp.setSizeS, Comp.setVisibleS,
        Comp.withPos, Comp.withSize, Comp.withVisible, Comp.isMounted,
        Comp.visible] <;>
      by_cases hv : vis = b <;> by_cases hm : m = true <;>
        simp [hv, hm]

/--
C5: the code contradicts the claim (and its own docstring) that emit
passes the payload to each handler: emit forwards only the keyword
arguments to the blinker signal send and silently drops every positional
argument.  With one handler registered, emitting with positional payload
42 invokes the handler with an empty payload; keyword payloads do reach
the handlers, in registration order, and emit on an emitter with no
registration for the name is a no-op.
-/
theorem claim_C5 :
    (Emitter.empty.onE "test" 0).emitE "test" ([42] : List Nat) [] = [(0, [])]
    ∧ ((Emitter.empty.onE "test" 0).onE "test" 1).emitE "test" ([] : List Nat)
        [("value", 7)] = [(0, [("value", 7)]), (1, [("value", 7)])]
    ∧ Emitter.empty.emitE "test" ([] : List Nat) [("value", 7)] = [] := by
  refine ⟨?_, ?_, ?_⟩ <;> rfl

/--
C2: the code contradicts the claim that a named state container is
created at most once per name for the process lifetime.  Acquisitions do
return the same instance and get_state of a never-created name does
fail, but the __init__ guard probes hasattr(self, "__initialized") while
the attribute actually written is the name-mangled
_StateManager__initialized, so every acquisition of StateManager()
re-runs the body and resets _states to empty: after create_state("s"),
one further acquisition, create_state("s") succeeds again instead of
raising the duplicate-registration error.
-/
theorem claim_C2 :
    (smAcquire ⟨none, []⟩).1 = 0
    ∧ (smAcquire (smAcquire ⟨none, []⟩).2).1 = 0
    ∧ (smCreateState (smAcquire ⟨none, []⟩).2 0 "s" []).2.isSome = true
    ∧ (smCreateState
        (smAcquire (smCreateState (smAcquire ⟨none, []⟩).2 0 "s" []).1).2
        0 "s" []).2.isSome = true
    ∧ smGetState (smAcquire ⟨none, []⟩).2 0 "missing" = none := by
  refine ⟨rfl, rfl, rfl, rfl, rfl⟩

/--
The truth value of the reversed propagation loop is order-independent:
it reports handled exactly when some visible child handles the event.
-/
theorem propagateRev_fst (cs : List EvNode) :
    (EvNode.propagateRev cs).1
      = cs.any (fun k => k.visible && (EvNode.handleEvent k).1) := by
  induction cs with
  | nil => rfl
  | cons c rest ih =>
    simp only [EvNode.propagateRev, List.any_cons]
    by_cases hr : (EvNode.propagateRev rest).1 = true
    · rw [if_pos hr, hr, ← ih, hr, Bool.or_true]
    · have hrf : (EvNode.propagateRev rest).1 = false := by
        revert hr; cases (EvNode.propagateRev rest).1 <;> simp
      rw [if_neg hr]
      by_cases hv : c.visible = true
      · rw [if_pos hv, hv, Bool.true_and]
        show (EvNode.handleEvent c).1
          = ((EvNode.handleEvent c).1
              || rest.any fun k => k.visible && (EvNode.handleEvent k).1)
        rw [← ih, hrf, Bool.or_false]
      · have hvf : c.visible = false := by
          revert hv; cases c.visible <;> simp
        rw [if_neg hv, hvf, Bool.false_and, Bool.false_or, ih]

/--
C4: for every Container node, handle_event first offers the event to the
node itself via the base behavior and returns true if that offer handles
it; otherwise it offers the event to visible children in reverse
insertion order, skipping invisible children and stopping at the first
that handles it, and returns true exactly when some level handled the
event.  The first conjunct characterizes the returned value for every
container; the remaining conjuncts exhibit the offer order on the
two-child scenarios: with children [A, B] and nothing handling, the
trace is container, then B, then A; when B handles, A is never offered;
an invisible child is skipped.
-/
theorem claim_C4 :
    (∀ (lb : String) (v sh : Bool) (cs : List EvNode),
      (EvNode.handleEvent (.mk lb true v sh cs)).1
        = (sh || cs.any (fun k => k.visible && (EvNode.handleEvent k).1)))
    ∧ EvNode.handleEvent (.mk "C" true true false
        [.mk "A" false true false [], .mk "B" false true false []])
        = (false, ["C", "B", "A"])
    ∧ EvNode.handleEvent (.mk "C" true true false
        [.mk "A" false true false [], .mk "B" false true true []])
        = (true, ["C", "B"])
    ∧ EvNode.handleEvent (.mk "C" true true false
        [.mk "A" false true true [], .mk "B" false false true []])
        = (true, ["C", "A"]) := by
  refine ⟨?_, rfl, rfl, rfl⟩
  intro lb v sh cs
  cases sh <;> simp [EvNode.handleEvent, propagateRev_fst]

/-- After Component.mount the node itself is always mounted. -/
theorem mountC_fst_isMounted (c : Comp) :
    ((Comp.mountC c).1).isMounted = true := by
  cases c with
  | mk i n m l v p s vt sp cs =>
    cases m <;> simp [Comp.mountC, Comp.isMounted]

/-- After Component.unmount the node itself is never mounted. -/
theorem unmountC_fst_isMounted (c : Comp) :
    ((Comp.unmountC c).1).isMounted = false := by
  cases c with
  | mk i n m l v p s vt sp cs =>
    cases m <;> simp [Comp.unmountC, Comp.isMounted]

/-- A mounted node makes Component.mount a complete no-op. -/
theorem mountC_of_mounted (c : Comp) (h : c.isMounted = true) :
    Comp.mountC c = (c, []) := by
  cases c with
  | mk i n m l v p s vt sp cs =>
    simp [Comp.isMounted] at h
    simp [Comp.mountC, h]

/-- An unmounted node makes Component.unmount a complete no-op. -/
theorem unmountC_of_unmounted (c : Comp) (h : c.isMounted = false) :
    Comp.unmountC c = (c, []) := by
  cases c with
  | mk i n m l v p s vt sp cs =>
    simp [Comp.isMounted] at h
    simp [Comp.unmountC, h]

mutual

/--
Mounting a fully unmounted tree emits exactly one MOUNT event per node,
in preorder.
-/
theorem mountC_trace : ∀ (c : Comp), c.allUnmounted = true →
    (Comp.mountC c).2 = c.preTags
  | .mk i n m l v p s vt sp cs => by
    intro h
    simp [Comp.allUnmounted] at h
    obtain ⟨hm, hcs⟩ := h
    simp [Comp.mountC, hm, Comp.preTags, mountL_trace cs hcs]

/-- List version of mountC_trace. -/
theorem mountL_trace : ∀ (cs : List Comp), Comp.allUnmountedL cs = true →
    (Comp.mountL cs).2 = Comp.preTagsL cs
  | [] => by intro; rfl
  | c :: rest => by
    intro h
    simp [Comp.allUnmountedL] at h
    obtain ⟨hc, hrest⟩ := h
    simp [Comp.mountL, Comp.preTagsL, mountC_trace c hc,
      mountL_trace rest hrest]

end

mutual

/--
Unmounting a fully mounted tree emits exactly one UNMOUNT event per
node, in postorder.
-/
theorem unmountC_trace : ∀ (c : Comp), c.allMounted = true →
    (Comp.unmountC c).2 = c.postTags
  | .mk i n m l v p s vt sp cs => by
    intro h
    simp [Comp.allMounted] at h
    obtain ⟨hm, hcs⟩ := h
    simp [Comp.unmountC, hm, Comp.postTags, unmountL_trace cs hcs]

/-- List version of unmountC_trace. -/
theorem unmountL_trace : ∀ (cs : List Comp), Comp.allMountedL cs = true →
    (Comp.unmountL cs).2 = Comp.postTagsL cs
  | [] => by intro; rfl
  | c :: rest => by
    intro h
    simp [Comp.allMountedL] at h
    obtain ⟨hc, hrest⟩ := h
    simp [Comp.unmountL, Comp.postTagsL, unmountC_trace c hc,
      unmountL_trace rest hrest]

end

/--
C8: mount() and unmount() are idempotent: a second consecutive call
returns the tree unchanged and fires no lifecycle event; and each
effective transition fires its lifecycle event exactly once per node --
mounting a fully unmounted tree emits one MOUNT per node (preorder),
unmounting a fully mounted tree emits one UNMOUNT per node (children
first).
-/
theorem claim_C8 (t : Comp) :
    Comp.mountC ((Comp.mountC t).1) = ((Comp.mountC t).1, [])
    ∧ Comp.unmountC ((Comp.unmountC t).1) = ((Comp.unmountC t).1, [])
    ∧ (t.allUnmounted = true → (Comp.mountC t).2 = t.preTags)
    ∧ (t.allMounted = true → (Comp.unmountC t).2 = t.postTags) :=
  ⟨mountC_of_mounted _ (mountC_fst_isMounted t),
   unmountC_of_unmounted _ (unmountC_fst_isMounted t),
   mountC_trace t, unmountC_trace t⟩

/--
Witness for C8 at a concrete two-level tree: mounting the fully
unmounted tree emits one MOUNT per node in preorder, and unmounting a
fully mounted tree emits one UNMOUNT per node with children first.
-/
theorem claim_C8_witness :
    (Comp.mountC (.mk (some "r") none false .created true (0, 0) (0, 0)
        true 0 [.mk (some "a") none false .created true (0, 0) (0, 0)
        true 0 []])).2
      = [(some "r", none), (some "a", none)]
    ∧ (Comp.unmountC (.mk (some "r") none true .mounted true (0, 0) (0, 0)
        true 0 [.mk (some "a") none true .mounted true (0, 0) (0, 0)
        true 0 []])).2
      = [(some "a", none), (some "r", none)] :=
  ⟨(claim_C8 _).2.2.1 (by rfl), (claim_C8 _).2.2.2 (by rfl)⟩

mutual

/--
find_by_id misses exactly when the id occurs nowhere in the tree: the
depth-first search of Component.find_by_id visits every node reachable
from its receiver.
-/
theorem findById_none : ∀ (c : Comp) (i : String),
    Comp.findById c i = none ↔ i ∉ c.allIds
  | .mk j n m l v p s vt sp cs, i => by
    by_cases hid : j = some i
    · simp [Comp.findById, Comp.allIds, hid]
    · simp [Comp.findById, Comp.allIds, hid, findByIdL_none cs i,
        Option.mem_toList, Option.mem_def]

/-- List version of findById_none. -/
theorem findByIdL_none : ∀ (cs : List Comp) (i : String),
    Comp.findByIdL cs i = none ↔ i ∉ Comp.allIdsL cs
  | [], i => by simp [Comp.findByIdL, Comp.allIdsL]
  | c :: rest, i => by
    cases hc : Comp.findById c i with
    | none =>
      have h1 : i ∉ c.allIds := (findById_none c i).mp hc
      simp [Comp.findByIdL, hc, Comp.allIdsL, findByIdL_none rest i, h1]
    | some x =>
      have h1 : i ∈ c.allIds := by
        by_contra hmem
        rw [← findById_none c i] at hmem
        rw [hc] at hmem
        exact Option.some_ne_none x hmem
      simp [Comp.findByIdL, hc, Comp.allIdsL, h1]

end

/-- allIdsL distributes over list append. -/
theorem allIdsL_append (as bs : List Comp) :
    Comp.allIdsL (as ++ bs) = Comp.allIdsL as ++ Comp.allIdsL bs := by
  induction as with
  | nil => rfl
  | cons c rest ih => simp [Comp.allIdsL, ih]

mutual

/-- Mounting never changes which ids occur in the tree. -/
theorem mountC_allIds : ∀ (c : Comp),
    Comp.allIds (Comp.mountC c).1 = c.allIds
  | .mk i n m l v p s vt sp cs => by
    cases m with
    | true => simp [Comp.mountC]
    | false => simp [Comp.mountC, Comp.allIds, mountL_allIds cs]

/-- List version of mountC_allIds. -/
theorem mountL_allIds : ∀ (cs : List Comp),
    Comp.allIdsL (Comp.mountL cs).1 = Comp.allIdsL cs
  | [] => rfl
  | c :: rest => by
    simp [Comp.mountL, Comp.allIdsL, mountC_allIds c, mountL_allIds rest]

end

/--
Replacing one list entry by a tree whose ids are a permutation of the
old entry's ids plus X permutes the list ids accordingly.
-/
theorem allIdsL_set_perm (X : List String) :
    ∀ (cs : List Comp) (k : Nat) (sub sub2 : Comp),
    cs[k]? = some sub →
    (Comp.allIds sub2).Perm (Comp.allIds sub ++ X) →
    (Comp.allIdsL (cs.set k sub2)).Perm (Comp.allIdsL cs ++ X)
  | [], k, sub, sub2 => by intro h; simp at h
  | c :: rest, 0, sub, sub2 => by
    intro h hperm
    simp at h
    subst h
    simp only [List.set, Comp.allIdsL]
    rw [List.append_assoc]
    have p1 := hperm.append_right (Comp.allIdsL rest)
    have p2 : List.Perm ((Comp.allIds c ++ X) ++ Comp.allIdsL rest)
        (Comp.allIds c ++ (Comp.allIdsL rest ++ X)) := by
      rw [List.append_assoc]
      exact List.Perm.append_left _ List.perm_append_comm
    exact p1.trans p2
  | c :: rest, k + 1, sub, sub2 => by
    intro h hperm
    simp at h
    have ih := allIdsL_set_perm X rest k sub sub2 h hperm
    simp only [List.set, Comp.allIdsL]
    rw [List.append_assoc]
    exact List.Perm.append_left _ ih

/--
Inserting a child at a path leaves the tree ids a permutation of the old
ids together with the new child's ids.
-/
theorem insertAt_perm :
    ∀ (root : Comp) (path : List Nat) (ch r : Comp),
    Comp.insertAt root path ch = some r →
    (Comp.allIds r).Perm (Comp.allIds root ++ Comp.allIds ch)
  | .mk i n m l v p s vt sp cs, [], ch, r => by
    intro h
    simp [Comp.insertAt] at h
    subst h
    simp [Comp.allIds, allIdsL_append, Comp.allIdsL]
  | .mk i n m l v p s vt sp cs, k :: rest, ch, r => by
    intro h
    simp only [Comp.insertAt] at h
    split at h
    next sub heq =>
      split at h
      next sub2 heq2 =>
        have hr : Comp.mk i n m l v p s vt sp (cs.set k sub2) = r := by
          injection h
        subst hr
        have hperm := insertAt_perm sub rest ch sub2 heq2
        have hset := allIdsL_set_perm (Comp.allIds ch) cs k sub sub2 heq hperm
        simp only [Comp.allIds]
        rw [List.append_assoc]
        exact List.Perm.append_left _ hset
      next heq2 => simp at h
    next heq => simp at h

mutual

/--
An id occurs in a tree exactly when it is the node's own id or the id of
one of the node's descendants as listed by _get_all_descendants.
-/
theorem ids_desc : ∀ (c : Comp) (i : String),
    i ∈ c.allIds ↔ c.cid = some i ∨ ∃ d ∈ c.descendants, d.cid = some i
  | .mk j n m l v p s vt sp cs, i => by
    simp only [Comp.allIds, Comp.descendants, List.mem_append,
      Option.mem_toList, Option.mem_def]
    rw [ids_descL cs i]
    exact Iff.rfl

/-- List version of ids_desc. -/
theorem ids_descL : ∀ (cs : List Comp) (i : String),
    i ∈ Comp.allIdsL cs ↔ ∃ d ∈ Comp.descendantsL cs, d.cid = some i
  | [], i => by simp [Comp.allIdsL, Comp.descendantsL]
  | c :: rest, i => by
    simp only [Comp.allIdsL, Comp.descendantsL, List.mem_append,
      List.mem_cons]
    rw [ids_desc c i, ids_descL rest i]
    constructor
    · rintro (hfst | hrest)
      · rcases hfst with hself | ⟨d, hd, hdi⟩
        · exact ⟨c, Or.inl rfl, hself⟩
        · exact ⟨d, Or.inr (Or.inl hd), hdi⟩
      · rcases hrest with ⟨d, hd, hdi⟩
        exact ⟨d, Or.inr (Or.inr hd), hdi⟩
    · rintro ⟨d, hd | hd | hd, hdi⟩
      · exact Or.inl (Or.inl (hd ▸ hdi))
      · exact Or.inl (Or.inr ⟨d, hd, hdi⟩)
      · exact Or.inr ⟨d, hd, hdi⟩

end

/--
The descendant loop reports no clash exactly when no listed descendant
carries an id already present in the tree searched from root.
-/
theorem dupDescCheck_false (root : Comp) :
    ∀ (ds : List Comp), dupDescCheck root ds = false ↔
      ∀ d ∈ ds, ∀ i, d.cid = some i → Comp.findById root i = none
  | [] => by simp [dupDescCheck]
  | d :: ds => by
    have hiff := dupDescCheck_false root ds
    cases hd : d.cid with
    | none =>
      simp only [dupDescCheck, hd]
      rw [hiff]
      constructor
      · intro h e he i hei
        rcases List.mem_cons.mp he with rfl | hm
        · rw [hd] at hei; exact absurd hei (by simp)
        · exact h e hm i hei
      · intro h e he i hei
        exact h e (List.mem_cons_of_mem _ he) i hei
    | some j =>
      simp only [dupDescCheck, hd]
      cases hf : Comp.findById root j with
      | some x =>
        constructor
        · intro h
          have hb : (true : Bool) = false := h
          exact absurd hb (by simp)
        · intro h
          have hx := h d (List.mem_cons_self d ds) j hd
          rw [hf] at hx
          exact absurd hx (by simp)
      | none =>
        constructor
        · intro h e he i hei
          have hds : dupDescCheck root ds = false := h
          rcases List.mem_cons.mp he with rfl | hm
          · rw [hd] at hei
            injection hei with hj
            subst hj
            exact hf
          · exact (hiff.mp hds) e hm i hei
        · intro h
          show dupDescCheck root ds = false
          exact hiff.mpr (fun e hm i hei =>
            h e (List.mem_cons_of_mem _ hm) i hei)

/--
When both id checks of add_child pass, no id of the incoming subtree
occurs anywhere in the current tree.
-/
theorem checks_disjoint (root child : Comp)
    (hci : childIdClash root child = false)
    (hdd : dupDescCheck root child.descendants = false) :
    ∀ i ∈ Comp.allIds child, i ∉ Comp.allIds root := by
  intro i hi
  rcases (ids_desc child i).mp hi with hself | ⟨d, hd, hdi⟩
  · simp only [childIdClash, hself] at hci
    have hnone : Comp.findById root i = none := by
      cases hfr : Comp.findById root i with
      | none => rfl
      | some x => rw [hfr] at hci; simp at hci
    exact (findById_none root i).mp hnone
  · have hnone := (dupDescCheck_false root child.descendants).mp hdd d hd i hdi
    exact (findById_none root i).mp hnone

/--
C1: starting from trees whose reachable non-empty ids are duplicate
free, add_child preserves that invariant on every outcome, because it
checks the child's id and every attached descendant's id against the
whole current tree before mutating; and whenever the incoming subtree
carries any id already present in the tree (and the call is not the
silent already-a-child no-op), the insertion is rejected with an error
and the tree is returned unchanged.
-/
theorem claim_C1 (root child : Comp) (path : List Nat)
    (hroot : (Comp.allIds root).Nodup)
    (hchild : (Comp.allIds child).Nodup) :
    (Comp.allIds (Comp.addChild root path child).1).Nodup
    ∧ (∀ tgt, Comp.getAt root path = some tgt → child ∉ tgt.children →
        (∃ i, i ∈ Comp.allIds child ∧ i ∈ Comp.allIds root) →
        (Comp.addChild root path child).1 = root
          ∧ (Comp.addChild root path child).2 ≠ none) := by
  constructor
  · simp only [Comp.addChild]
    split
    next heq0 => exact hroot
    next tgt heq0 =>
      split
      next hmem => exact hroot
      next hmem =>
        split
        next hnc => exact hroot
        next hnc =>
          split
          next hic => exact hroot
          next hic =>
            split
            next hdd => exact hroot
            next hdd =>
              split
              next r heq2 =>
                have hids : Comp.allIds
                    (if tgt.isMounted = true then (Comp.mountC child).1
                      else child) = Comp.allIds child := by
                  split
                  · exact mountC_allIds child
                  · rfl
                have hperm := insertAt_perm root path _ r heq2
                rw [hids] at hperm
                have hcif : childIdClash root child = false := by
                  revert hic; cases childIdClash root child <;> simp
                have hddf : dupDescCheck root child.descendants = false := by
                  revert hdd; cases dupDescCheck root child.descendants <;> simp
                have hdisj : (Comp.allIds root).Disjoint (Comp.allIds child) :=
                  fun a har hac =>
                    checks_disjoint root child hcif hddf a hac har
                have happ : (Comp.allIds root ++ Comp.allIds child).Nodup :=
                  List.nodup_append.mpr ⟨hroot, hchild, hdisj⟩
                exact hperm.symm.nodup happ
              next heq2 => exact hroot
  · intro tgt hg hmem hex
    by_cases hnc : nameClash tgt.children child.nm = true
    · have hres : Comp.addChild root path child
          = (root, some "duplicate name") := by
        simp only [Comp.addChild, hg]
        rw [if_neg hmem, if_pos hnc]
      rw [hres]
      exact ⟨rfl, by simp⟩
    · by_cases hic : childIdClash root child = true
      · have hres : Comp.addChild root path child
            = (root, some "duplicate id") := by
          simp only [Comp.addChild, hg]
          rw [if_neg hmem, if_neg hnc, if_pos hic]
        rw [hres]
        exact ⟨rfl, by simp⟩
      · obtain ⟨i, hic2, hir⟩ := hex
        rcases (ids_desc child i).mp hic2 with hself | ⟨d, hd, hdi⟩
        · exfalso
          apply hic
          simp only [childIdClash, hself]
          cases hfr : Comp.findById root i with
          | none => exact absurd hir ((findById_none root i).mp hfr)
          | some x => simp
        · have hdd : dupDescCheck root child.descendants = true := by
            by_contra hno
            have hfalse : dupDescCheck root child.descendants = false := by
              revert hno; cases dupDescCheck root child.descendants <;> simp
            have hnone := (dupDescCheck_false root
              child.descendants).mp hfalse d hd i hdi
            exact absurd hir ((findById_none root i).mp hnone)
          have hres : Comp.addChild root path child
              = (root, some "duplicate descendant id") := by
            simp only [Comp.addChild, hg]
            rw [if_neg hmem, if_neg hnc, if_neg hic, if_pos hdd]
          rw [hres]
          exact ⟨rfl, by simp⟩

/--
C6: whenever add_child rejects an insertion, the raised error leaves the
whole tree value (child lists, parent structure, mounted flags --
everything) exactly as it was: every error outcome returns the original
root; and the rejection conditions (sibling name collision, or id
collision of the child or any descendant with an existing tree member,
when the child is not already a child of the target) do produce an
error.
-/
theorem claim_C6 (root child : Comp) (path : List Nat) :
    (∀ r e, Comp.addChild root path child = (r, some e) → r = root)
    ∧ (∀ tgt, Comp.getAt root path = some tgt → child ∉ tgt.children →
        (nameClash tgt.children child.nm = true
          ∨ childIdClash root child = true
          ∨ dupDescCheck root child.descendants = true) →
        ∃ e, Comp.addChild root path child = (root, some e)) := by
  constructor
  · intro r e h
    simp only [Comp.addChild] at h
    split at h
    next heq0 =>
      injection h with h1 h2
      exact h1.symm
    next tgt heq0 =>
      split at h
      next hmem =>
        injection h with h1 h2
        simp at h2
      next hmem =>
        split at h
        next hnc =>
          injection h with h1 h2
          exact h1.symm
        next hnc =>
          split at h
          next hic =>
            injection h with h1 h2
            exact h1.symm
          next hic =>
            split at h
            next hdd =>
              injection h with h1 h2
              exact h1.symm
            next hdd =>
              split at h
              next r2 heq2 =>
                injection h with h1 h2
                simp at h2
              next heq2 =>
                injection h with h1 h2
                exact h1.symm
  · intro tgt hg hmem hor
    rcases hor with hnc | hic | hdd
    · refine ⟨"duplicate name", ?_⟩
      simp only [Comp.addChild, hg]
      rw [if_neg hmem, if_pos hnc]
    · by_cases hnc : nameClash tgt.children child.nm = true
      · refine ⟨"duplicate name", ?_⟩
        simp only [Comp.addChild, hg]
        rw [if_neg hmem, if_pos hnc]
      · refine ⟨"duplicate id", ?_⟩
        simp only [Comp.addChild, hg]
        rw [if_neg hmem, if_neg hnc, if_pos hic]
    · by_cases hnc : nameClash tgt.children child.nm = true
      · refine ⟨"duplicate name", ?_⟩
        simp only [Comp.addChild, hg]
        rw [if_neg hmem, if_pos hnc]
      · by_cases hic : childIdClash root child = true
        · refine ⟨"duplicate id", ?_⟩
          simp only [Comp.addChild, hg]
          rw [if_neg hmem, if_neg hnc, if_pos hic]
        · refine ⟨"duplicate descendant id", ?_⟩
          simp only [Comp.addChild, hg]
          rw [if_neg hmem, if_neg hnc, if_neg hic, if_pos hdd]

/--
C10: when the component being added is already present in the target's
child list, add_child is a silent no-op: the whole body -- the duplicate
name check, both duplicate id checks, the append, the parent assignment
and the conditional mount -- is skipped, no error is raised and the tree
is returned unchanged.
-/
theorem claim_C10 (root child tgt : Comp) (path : List Nat)
    (hg : Comp.getAt root path = some tgt)
    (hmem : child ∈ tgt.children) :
    Comp.addChild root path child = (root, none) := by
  simp only [Comp.addChild, hg]
  rw [if_pos hmem]

/-- A leaf carrying id "x". -/
def dupLeaf : Comp :=
  .mk (some "x") none false .created true (0, 0) (0, 0) true 0 []

/-- A childless root that also carries id "x". -/
def dupRoot : Comp :=
  .mk (some "x") none false .created true (0, 0) (0, 0) true 0 []

/-- A root carrying id "x" whose only child is dupLeaf. -/
def memParent : Comp :=
  .mk (some "x") none false .created true (0, 0) (0, 0) true 0 [dupLeaf]

/-- A childless root with id "r". -/
def okRoot : Comp :=
  .mk (some "r") none false .created true (0, 0) (0, 0) true 0 []

/-- A childless component with id "c". -/
def okChild : Comp :=
  .mk (some "c") none false .created true (0, 0) (0, 0) true 0 []

/--
Witness for C1: inserting a fresh id succeeds and keeps ids duplicate
free; inserting a component whose id "x" already exists in the tree is
rejected with the tree unchanged.
-/
theorem claim_C1_witness :
    (Comp.allIds (Comp.addChild okRoot [] okChild).1).Nodup
    ∧ ((Comp.addChild dupRoot [] dupLeaf).1 = dupRoot
        ∧ (Comp.addChild dupRoot [] dupLeaf).2 ≠ none) :=
  ⟨(claim_C1 okRoot okChild [] (by decide) (by decide)).1,
   (claim_C1 dupRoot dupLeaf [] (by decide) (by decide)).2 dupRoot rfl
     (by decide) ⟨"x", by decide, by decide⟩⟩

/--
Witness for C6: adding a leaf with id "x" to a root already carrying id
"x" errors and the error outcome returns the unchanged root.
-/
theorem claim_C6_witness :
    ((Comp.addChild dupRoot [] dupLeaf).1 = dupRoot)
    ∧ (∃ e, Comp.addChild dupRoot [] dupLeaf = (dupRoot, some e)) :=
  ⟨(claim_C6 dupRoot dupLeaf []).1 (Comp.addChild dupRoot [] dupLeaf).1
      "duplicate id" (by decide),
   (claim_C6 dupRoot dupLeaf []).2 dupRoot rfl (by decide)
      (Or.inr (Or.inl (by decide)))⟩

/--
Witness for C10: dupLeaf is already a child of memParent and its id "x"
collides with memParent's own id, yet re-adding it neither errors nor
changes the tree -- the duplicate checks never run.
-/
theorem claim_C10_witness :
    dupLeaf ∈ memParent.children
    ∧ dupLeaf.cid = memParent.cid
    ∧ Comp.addChild memParent [] dupLeaf = (memParent, none) :=
  ⟨by decide, by decide, claim_C10 memParent dupLeaf memParent [] rfl
      (by decide)⟩

/--
C7: set emits exactly one single-key notification carrying key, value
and old value precisely when the new value differs from the current one
(unset keys reading as None), and nothing otherwise; update emits
exactly one batch notification carrying the changed keys and the full
input mapping precisely when at least one key changed; the two
notification shapes are distinct constructors and never interchangeable.
-/
theorem claim_C7 {α : Type} [DecidableEq α] (s : StateC α) (k : String)
    (v : Option α) (m : List (String × Option α)) :
    (dictGet s.state k = v → (s.setS k v).2 = none)
    ∧ (dictGet s.state k ≠ v →
        (s.setS k v).2 = some (.single k v (dictGet s.state k)))
    ∧ ((s.updateS m).2 = none ↔ (updLoop s.state s.prev m).2.2 = [])
    ∧ ((updLoop s.state s.prev m).2.2 ≠ [] →
        (s.updateS m).2
          = some (.batch (updLoop s.state s.prev m).2.2 m))
    ∧ (∀ (k2 : String) (v2 o2 : Option α) (ks : List String)
        (up : List (String × Option α)),
        Notif.single k2 v2 o2 ≠ Notif.batch ks up) := by
  refine ⟨?_, ?_, ?_, ?_, ?_⟩
  · intro h
    simp [StateC.setS, h]
  · intro h
    simp only [StateC.setS]
    rw [if_pos h]
  · by_cases hc : (updLoop s.state s.prev m).2.2 = [] <;>
      simp [StateC.updateS, hc]
  · intro hne
    simp [StateC.updateS, hne]
  · intro k2 v2 o2 ks up h
    cases h

/--
Witness for C7 over Nat values: on state with key "a" holding 1, setting
"a" to 2 emits the single-key notification with old value 1; updating
with a real change on key "b" emits the batch notification carrying the
changed keys and the full mapping.
-/
theorem claim_C7_witness :
    (dictGet (StateC.mk [("a", some 1)] [] : StateC Nat).state "a"
        ≠ some 2
      ∧ ((StateC.mk [("a", some 1)] [] : StateC Nat).setS "a"
          (some 2)).2
        = some (Notif.single "a" (some 2)
            (dictGet (StateC.mk [("a", some 1)] [] :
              StateC Nat).state "a")))
    ∧ ((updLoop (StateC.mk [("a", some 1)] [] : StateC Nat).state
          (StateC.mk [("a", some 1)] [] : StateC Nat).prev
          [("b", some 5)]).2.2 ≠ []
      ∧ ((StateC.mk [("a", some 1)] [] : StateC Nat).updateS
          [("b", some 5)]).2
        = some (Notif.batch
            (updLoop (StateC.mk [("a", some 1)] [] : StateC Nat).state
              (StateC.mk [("a", some 1)] [] : StateC Nat).prev
              [("b", some 5)]).2.2
            [("b", some 5)])) :=
  ⟨⟨by decide,
    (claim_C7 (StateC.mk [("a", some 1)] []) "a" (some 2) []).2.1
      (by decide)⟩,
   ⟨by decide,
    (claim_C7 (StateC.mk [("a", some 1)] []) "a" (some 2)
        [("b", some 5)]).2.2.2.1 (by decide)⟩⟩
